import Mathlib

/-!
# Verification of the fsock FreeSWITCH ESL client library

This file gives a shallow embedding, in Lean 4, of the core algorithms of the
`fsock` Go library (FreeSWITCH Event Socket Layer client): the bracket-aware
line splitter, the event-string parsers, the subscription-command composer,
the background-job correlation logic, the reader-loop frame classification,
the read-error classification, the reconnect loop and the connection pool.
Strings are modelled as `List Char` at the core (Go operates on bytes; the
inputs of interest are ASCII), with `String`-level wrappers mirroring the
source API.  Maps (`map[string]string`, `map[string]chan string`) are
modelled as association lists with insert-overwrite semantics; channels are
identified by numeric tokens.  Each theorem below settles one claim about
the library, against these embeddings.
-/

namespace Fsock

/-- Go `unicode.IsSpace`, restricted to the ASCII whitespace characters
(the inputs of interest are ASCII). -/
def isSpaceGo (c : Char) : Bool :=
  c = ' ' || c = '\t' || c = '\n' || c = '\x0b' || c = '\x0c' || c = '\r'

/-- Go `strings.TrimSpace` on a character list: drop whitespace from both ends. -/
def trimSpaceGo (s : List Char) : List Char :=
  ((s.dropWhile isSpaceGo).reverse.dropWhile isSpaceGo).reverse

/-- Go `strings.TrimRight(s, "\n")`: drop trailing newline characters. -/
def trimRightNl (s : List Char) : List Char :=
  (s.reverse.dropWhile (fun c => c = '\n')).reverse

/-- Go `strings.Contains(hay, nd)`: does `nd` occur as a contiguous substring? -/
def containsSubstr (hay nd : List Char) : Bool :=
  if nd.isPrefixOf hay then true
  else match hay with
    | [] => false
    | _ :: t => containsSubstr t nd

/-- Go `strings.Index(hay, nd)`: index of the first occurrence of `nd` in
`hay` (`none` for Go's `-1`). -/
def indexOfSubstr (hay nd : List Char) : Option Nat :=
  if nd.isPrefixOf hay then some 0
  else match hay with
    | [] => none
    | _ :: t => (indexOfSubstr t nd).map (· + 1)

/-- Go `strings.Split(s, [sep])` for a one-character separator: split `s` at
every occurrence of the character `sep`. -/
def splitOnCharGo (sep : Char) (s : List Char) : List (List Char) :=
  match s with
  | [] => [[]]
  | c :: t =>
    let r := splitOnCharGo sep t
    if c = sep then [] :: r
    else match r with
      | [] => [[c]]
      | h :: t' => (c :: h) :: t'

/-- Go `strings.SplitN(s, sep, 2)` when it finds the separator: the parts
before and after the FIRST occurrence of `sep`; `none` when `sep` does not
occur (Go then returns the single-element split). -/
def splitN2 (s sep : List Char) : Option (List Char × List Char) :=
  if sep.isPrefixOf s then some ([], s.drop sep.length)
  else match s with
    | [] => none
    | c :: t => (splitN2 t sep).map (fun p => (c :: p.1, p.2))

/-- Go `strings.Join` / the separator-interleaved concatenation used to state
the split/join round-trip. -/
def joinSep (sep : List Char) : List (List Char) → List Char
  | [] => []
  | [x] => x
  | x :: y :: t => x ++ sep ++ joinSep sep (y :: t)

/-- One step of the bracket counters of `splitIgnoreGroups`: `[`,`{`,`(`
increment their counter, `]`,`}`,`)` decrement it but never below zero
(source: the `switch s[i]` block of `splitIgnoreGroups`, src/utils.go). -/
def bracketStep (c : Char) (sq crl par : Nat) : Nat × Nat × Nat :=
  if c = '[' then (sq + 1, crl, par)
  else if c = ']' then (sq - 1, crl, par)
  else if c = '{' then (sq, crl + 1, par)
  else if c = '}' then (sq, crl - 1, par)
  else if c = '(' then (sq, crl, par + 1)
  else if c = ')' then (sq, crl, par - 1)
  else (sq, crl, par)

/-- The scanning loop of `splitIgnoreGroups` (src/utils.go, lines 371-413):
`acc` holds the characters of the current element (Go's `s[idx:i]`), `rest`
the unscanned remainder (`s[i:]`), and `sq`/`crl`/`par` the three open-bracket
counters.  A split happens exactly when `sep` occurs at the current position
with all three counters zero; the separator is then skipped without being
scanned.  At the end of the string the current element is appended.  `fuel`
bounds the number of loop iterations and only makes the recursion structural:
each iteration consumes at least one character of `rest` (the separator is
non-empty at every call site), so with `fuel ≥ rest.length + 1` the
fuel-exhausted branch is never reached. -/
def sigLoop (sep : List Char) : Nat → List Char → List Char →
    Nat → Nat → Nat → List (List Char)
  | 0, acc, rest, _, _, _ => [acc ++ rest]
  | fuel + 1, acc, rest, sq, crl, par =>
    if sep.isPrefixOf rest ∧ sq = 0 ∧ crl = 0 ∧ par = 0 then
      acc :: sigLoop sep fuel [] (rest.drop sep.length) 0 0 0
    else match rest with
      | [] => [acc]
      | c :: t =>
        let s' := bracketStep c sq crl par
        sigLoop sep fuel (acc ++ [c]) t s'.1 s'.2.1 s'.2.2

/-- Embedding of `splitIgnoreGroups(s, sep, expectedLength)` from src/utils.go: split `s`
by `sep`, not splitting inside `{}`, `[]` or `()` groups.  Empty input gives
an empty list, empty separator gives the whole string, otherwise the scan. -/
def splitIgnoreGroups (s sep : List Char) (_expectedLength : Nat) :
    List (List Char) :=
  if s = [] then []
  else if sep = [] then [s]
  else sigLoop sep (s.length + 1) [] s 0 0 0

/-- String-level wrapper of `splitIgnoreGroups`, mirroring the Go signature. -/
def splitIgnoreGroupsStr (s sep : String) (expectedLength : Nat) :
    List String :=
  (splitIgnoreGroups s.data sep.data expectedLength).map
    (fun l => String.mk l)

/-- Go map lookup on an association-list model of `map[k]v`. -/
def alLookup {α β : Type} [DecidableEq α] (k : α) : List (α × β) → Option β
  | [] => none
  | (a, b) :: t => if a = k then some b else alLookup k t

/-- Go map insertion on an association-list model of `map[k]v`: overwrite
the binding when the key is present (keys are unique in a Go map), append it
otherwise. -/
def alInsert {α β : Type} [DecidableEq α] (m : List (α × β)) (k : α) (v : β) :
    List (α × β) :=
  match m with
  | [] => [(k, v)]
  | (a, b) :: t => if a = k then (k, v) :: t else (a, b) :: alInsert t k v

/-- Go `delete(m, k)` on the association-list model. -/
def alErase {α β : Type} [DecidableEq α] (m : List (α × β)) (k : α) :
    List (α × β) :=
  m.filter (fun p => ¬ p.1 = k)

/-- Value of a hexadecimal digit, as used by Go `net/url`'s `unhex`. -/
def hexDigitVal (c : Char) : Option Nat :=
  if '0' ≤ c ∧ c ≤ '9' then some (c.toNat - '0'.toNat)
  else if 'a' ≤ c ∧ c ≤ 'f' then some (c.toNat - 'a'.toNat + 10)
  else if 'A' ≤ c ∧ c ≤ 'F' then some (c.toNat - 'A'.toNat + 10)
  else none

/-- Go `url.QueryUnescape`: decode `%XY` hex escapes (one decoded byte per
escape, modelled as one character) and `+` as space; fail on a `%` not
followed by two hex digits. -/
def queryUnescape : List Char → Option (List Char)
  | [] => some []
  | '%' :: rest =>
    match rest with
    | a :: b :: t =>
      match hexDigitVal a, hexDigitVal b with
      | some x, some y => (queryUnescape t).map (Char.ofNat (16 * x + y) :: ·)
      | _, _ => none
    | _ => none
  | '+' :: t => (queryUnescape t).map (' ' :: ·)
  | c :: t => (queryUnescape t).map (c :: ·)

/-- Embedding of `urlDecode` from src/utils.go: percent-decode a header value, keeping the
original value when decoding fails. -/
def urlDecode (hdrVal : List Char) : List Char :=
  (queryUnescape hdrVal).getD hdrVal

/-- The literal key `EvBody` (`EventBodyTag` in src/utils.go) under which
`EventToMap` stores the body of an event. -/
def evBodyTag : List Char := "EvBody".data

/-- The line loop of `EventToMap` (src/utils.go, lines 339-357): header lines
`Key: value` contribute decoded entries until the first empty line; the first
non-empty line after that makes the remaining lines (re-joined by `\n`) the
`EvBody` entry, ending the loop. -/
def eventToMapLines : List (List Char) → Bool →
    List (List Char × List Char) → List (List Char × List Char)
  | [], _, acc => acc
  | ln :: rest, body, acc =>
    if ln = [] then eventToMapLines rest true acc
    else if body then alInsert acc evBodyTag (joinSep ['\n'] (ln :: rest))
    else match splitN2 ln (": ".data) with
      | none => eventToMapLines rest body acc
      | some (k, v) =>
        eventToMapLines rest body (alInsert acc k (urlDecode (trimSpaceGo v)))

/-- Embedding of `EventToMap` from src/utils.go: parse an event string into a header map
plus the synthesized `EvBody` entry. -/
def eventToMap (event : List Char) : List (List Char × List Char) :=
  eventToMapLines (splitOnCharGo '\n' event) false []

/-- The per-line behaviour of `FSEventStrToMap` (src/utils.go, lines
302-314): a `Key: value` line is skipped when the `headers` argument is
non-empty and contains the key, and otherwise contributes its decoded,
trimmed value; any other line is ignored. -/
def fsEventLineStep (headers : List (List Char))
    (acc : List (List Char × List Char)) (ln : List Char) :
    List (List Char × List Char) :=
  match splitN2 ln (": ".data) with
  | none => acc
  | some (k, v) =>
    if headers ≠ [] ∧ k ∈ headers then acc
    else alInsert acc k (urlDecode (trimSpaceGo (trimRightNl v)))

/-- Embedding of `FSEventStrToMap` from src/utils.go (lines 302-314): fold
`fsEventLineStep` over the `\n`-split lines of the event string. -/
def fsEventStrToMap (fsevstr : List Char) (headers : List (List Char)) :
    List (List Char × List Char) :=
  (splitOnCharGo '\n' fsevstr).foldl (fsEventLineStep headers) []

/-- Embedding of `headerVal` from src/utils.go: locate the first occurrence of the header
name, cut at the following newline (or end of block), split at the first
`": "` and trim the value; empty string when anything is missing. -/
def headerVal (hdrs hdr : List Char) : List Char :=
  match indexOfSubstr hdrs hdr with
  | none => []
  | some i =>
    let tail := hdrs.drop i
    let seg := match indexOfSubstr tail ['\n'] with
      | none => tail
      | some j => tail.take j
    match splitN2 seg (": ".data) with
    | none => []
    | some (_, v) => trimSpaceGo (trimRightNl v)

/-- Result of one call to `FSConn.SendBgapiCmd` (src/fsconn.go, lines
737-749), as a state transformer on the job map `bgapiChan` (modelled as an
association list from job UUID to a channel token).  The UUID generated by
`genUUID` and the freshly created channel are parameters (`jobUUID`, `out`);
`sendFails` tells whether the synchronous `Send` of the payload errors. -/
structure BgapiSendResult where
  payload : List Char
  bgapiChan : List (List Char × Nat)
  out : Option Nat
  isErr : Bool
deriving DecidableEq

/-- Embedding of `FSConn.SendBgapiCmd` (src/fsconn.go, lines 737-749): register
`jobUUID ↦ out` in the job map, then synchronously send
`bgapi <cmd>\nJob-UUID:<uuid>\n\n`; on send error return the error (the map
is left as it is), otherwise return the channel. -/
def sendBgapiCmd (cmdStr jobUUID : List Char) (out : Nat) (sendFails : Bool)
    (bgapiChan : List (List Char × Nat)) : BgapiSendResult :=
  let chans := alInsert bgapiChan jobUUID out
  { payload := "bgapi ".data ++ cmdStr ++ "\nJob-UUID:".data ++ jobUUID ++
      "\n\n".data
    bgapiChan := chans
    out := if sendFails then none else some out
    isErr := sendFails }

/-- Embedding of `FSConn.doBackgroundJob` (src/fsconn.go, lines 675-694): parse the event
with `EventToMap`; if it has a `Job-UUID` registered in the job map, remove
that entry and send the parsed `EvBody` value (Go's zero value `""` when
absent) on the registered channel; otherwise leave the map unchanged and
send nothing.  Returns the new map and the performed send, if any. -/
def doBackgroundJob (bgapiChan : List (List Char × Nat))
    (event : List Char) : List (List Char × Nat) × Option (Nat × List Char) :=
  match alLookup ("Job-UUID".data) (eventToMap event) with
  | none => (bgapiChan, none)
  | some jobUUID =>
    match alLookup jobUUID bgapiChan with
    | none => (bgapiChan, none)
    | some out =>
      (alErase bgapiChan jobUUID,
        some (out, (alLookup evBodyTag (eventToMap event)).getD []))

/-- The handler-key loop of `FSConn.eventsPlain` (src/fsconn.go, lines
551-561): a key equal to `ALL` replaces the whole command by
`event plain all` and breaks; a key starting with `CUSTOM` appends its
6-character-stripped suffix to the custom buffer; any other key is appended
to the command after a space. -/
def epLoop : List (List Char) → List Char → List Char → List Char × List Char
  | [], cmd, cust => (cmd, cust)
  | ev :: rest, cmd, cust =>
    if ev = "ALL".data then ("event plain all".data, cust)
    else if ("CUSTOM".data).isPrefixOf ev then epLoop rest cmd (cust ++ ev.drop 6)
    else epLoop rest (cmd ++ ' ' :: ev) cust

/-- The subscription command composed by `FSConn.eventsPlain` (src/fsconn.go,
lines 548-584), before the `\n\n` terminator is appended: run the key loop
from `event plain`; unless the command is `event plain all`, append
` BACKGROUND_JOB` when bgapi is on and ` CUSTOM<buffer>` when the custom
buffer is non-empty. -/
def eventsPlainCmd (events : List (List Char)) (bgapi : Bool) : List Char :=
  let r := epLoop events "event plain".data []
  if r.1 ≠ "event plain all".data then
    let cmd := if bgapi then r.1 ++ " BACKGROUND_JOB".data else r.1
    if r.2 ≠ [] then cmd ++ ' ' :: ("CUSTOM".data ++ r.2) else cmd
  else r.1

/-- String-level wrapper of `eventsPlainCmd`. -/
def eventsPlainCmdStr (events : List String) (bgapi : Bool) : String :=
  String.mk (eventsPlainCmd (events.map String.data) bgapi)

/-- The read errors distinguished by `FSConn.readHeaders` (src/fsconn.go,
lines 460-492): `io.EOF`; a `net.OpError` carrying whether `Timeout()` holds
and whether it wraps `syscall.ECONNRESET` (plus an identity for other such
errors); and any error that is not a `net.OpError` (identified by a token,
e.g. a wrapped protocol error). -/
inductive GoError where
  | eof
  | opError (timeout : Bool) (connReset : Bool) (id : Nat)
  | other (id : Nat)
deriving DecidableEq

/-- The error classification of `FSConn.readHeaders` (src/fsconn.go, lines
476-481): return `io.EOF` when the error is not a `net.OpError`, or when it
timed out, or when it wraps `ECONNRESET`; return the error unchanged
otherwise. -/
def classifyReadError : GoError → GoError
  | .opError timeout connReset id =>
    if timeout || connReset then .eof else .opError timeout connReset id
  | _ => .eof

/-- One result of `bufio.Reader.ReadBytes('\n')`: a line (with its
terminator when present) or a read error. -/
inductive ReadResult where
  | line (s : List Char)
  | fail (e : GoError)

/-- Embedding of `FSConn.readHeaders` (src/fsconn.go, lines 460-492) over a deterministic
model of the buffered reader as the list of successive read results: lines
accumulate until a line that is empty after trimming; a read error closes
the connection and returns the empty header with the classified error; an
exhausted stream behaves as a read returning `io.EOF`. -/
def readHeadersGo (acc : List Char) : List ReadResult →
    List Char × Option GoError
  | [] => ([], some (classifyReadError .eof))
  | .fail e :: _ => ([], some (classifyReadError e))
  | .line l :: rest =>
    if trimSpaceGo l = [] then (acc, none) else readHeadersGo (acc ++ l) rest

/-- What one iteration of the reader loop `FSConn.readEvents` (src/fsconn.go,
lines 629-643) does with a frame that is read without error. -/
inductive FrameAction where
  | publishReply (s : List Char)
  | dispatchEvent (s : List Char)
  | nothing
deriving DecidableEq

/-- The frame classification switch of `FSConn.readEvents` (src/fsconn.go,
lines 629-643): a header containing `api/response` publishes the body on the
replies channel; otherwise a header containing `command/reply` publishes the
extracted `Reply-Text` value; otherwise a non-empty body is dispatched as an
event; otherwise nothing happens. -/
def readEventsClassify (hdr body : List Char) : FrameAction :=
  if containsSubstr hdr ("api/response".data) then .publishReply body
  else if containsSubstr hdr ("command/reply".data) then
    .publishReply (headerVal hdr ("Reply-Text".data))
  else if body ≠ [] then .dispatchEvent body
  else .nothing

/-- The attempt loop of `FSock.reconnectIfNeeded` (src/unnamed/part_001,
lines 194-199) for a non-negative `reconnects` bound: `remaining` attempts
are allowed, `connectOk i` tells whether the `i`-th call to `connect`
succeeds (and leaves the socket connected).  Returns the number of `connect`
calls made and whether one succeeded. -/
def reconnectAttempts (connectOk : Nat → Bool) : Nat → Nat → Nat × Bool
  | _, 0 => (0, false)
  | i, remaining + 1 =>
    if connectOk i then (1, true)
    else
      let r := reconnectAttempts connectOk (i + 1) remaining
      (r.1 + 1, r.2)

/-- Embedding of `FSock.reconnectIfNeeded` (src/unnamed/part_001, lines 188-204) with
`reconnects = k ≥ 0`: nothing to do when connected; otherwise run the
attempt loop; an error is returned exactly when no attempt succeeded (the
last connect error, or `not connected to FreeSWITCH` when the loop made no
attempts).  Returns the number of `connect` calls and whether an error is
returned. -/
def reconnectIfNeeded (connected : Bool) (k : Nat) (connectOk : Nat → Bool) :
    Nat × Bool :=
  if connected then (0, false)
  else
    let r := reconnectAttempts connectOk 0 k
    (r.1, !r.2)

/-- The number of values `FSock.handleConnectionError` (src/unnamed/part_001,
lines 111-150) emits on the external `stopError` channel when a dropped
connection (io.EOF) makes it run `reconnectIfNeeded`: `signalError` sends
exactly one value when reconnection returned an error, none otherwise. -/
def stopErrorEmissions (connected : Bool) (k : Nat) (connectOk : Nat → Bool) :
    Nat :=
  if (reconnectIfNeeded connected k connectOk).2 then 1 else 0

/-- A state of the connection pool `FSockPool` (src/fsockpool.go), counting:
free permits in `allowedConns`; live and no-longer-connected supervisors
sitting in the `fSocks` idle channel; live and no-longer-connected
supervisors checked out to callers; and callers whose `PopFSock` consumed a
permit but whose `NewFSock` construction failed (they hold no supervisor
until they return `nil` to `PushFSock`). -/
structure PoolState where
  permits : Nat
  idleLive : Nat
  idleDead : Nat
  outLive : Nat
  outDead : Nat
  failedPops : Nat
deriving DecidableEq

/-- The atomic transitions of the pool (src/fsockpool.go, lines 171-202):
`PopFSock` dequeues an idle supervisor, or consumes a permit and constructs
a new one (which may fail), or times out; `PushFSock` enqueues a connected
supervisor on idle and turns a `nil` or disconnected one into a permit; a
supervisor's connection may drop (and its reconnects be exhausted) at any
time. -/
inductive PoolStep : PoolState → PoolState → Prop where
  | popIdleLive (s : PoolState) (h : 0 < s.idleLive) :
      PoolStep s { s with idleLive := s.idleLive - 1, outLive := s.outLive + 1 }
  | popIdleDead (s : PoolState) (h : 0 < s.idleDead) :
      PoolStep s { s with idleDead := s.idleDead - 1, outDead := s.outDead + 1 }
  | popNewOk (s : PoolState) (h : 0 < s.permits) :
      PoolStep s { s with permits := s.permits - 1, outLive := s.outLive + 1 }
  | popNewFail (s : PoolState) (h : 0 < s.permits) :
      PoolStep s { s with permits := s.permits - 1,
                          failedPops := s.failedPops + 1 }
  | popTimeout (s : PoolState) : PoolStep s s
  | dieOut (s : PoolState) (h : 0 < s.outLive) :
      PoolStep s { s with outLive := s.outLive - 1, outDead := s.outDead + 1 }
  | dieIdle (s : PoolState) (h : 0 < s.idleLive) :
      PoolStep s { s with idleLive := s.idleLive - 1,
                           idleDead := s.idleDead + 1 }
  | pushLive (s : PoolState) (h : 0 < s.outLive) :
      PoolStep s { s with outLive := s.outLive - 1, idleLive := s.idleLive + 1 }
  | pushDead (s : PoolState) (h : 0 < s.outDead) :
      PoolStep s { s with outDead := s.outDead - 1, permits := s.permits + 1 }
  | pushNil (s : PoolState) (h : 0 < s.failedPops) :
      PoolStep s { s with failedPops := s.failedPops - 1,
                           permits := s.permits + 1 }

/-- The reachable pool states for capacity `N`: `NewFSockPool`
(src/fsockpool.go, lines 113-150) fills `allowedConns` with `N` permits and
leaves `fSocks` empty, then the pool evolves by `PoolStep`s. -/
inductive PoolReachable (N : Nat) : PoolState → Prop where
  | init : PoolReachable N ⟨N, 0, 0, 0, 0, 0⟩
  | step {s s' : PoolState} (hs : PoolReachable N s) (hstep : PoolStep s s') :
      PoolReachable N s'

/-- The bracket-counter update in the words of the specification: the three
counters "increment on '[', '{', '(' and decrement on ']', '}', ')' but are
never decremented below zero (a stray closing bracket is ignored)". -/
def specCounterStep (c : Char) (sq crl par : Nat) : Nat × Nat × Nat :=
  if c = '[' then (sq + 1, crl, par)
  else if c = ']' then (if 0 < sq then sq - 1 else sq, crl, par)
  else if c = '{' then (sq, crl + 1, par)
  else if c = '}' then (sq, if 0 < crl then crl - 1 else crl, par)
  else if c = '(' then (sq, crl, par + 1)
  else if c = ')' then (sq, crl, if 0 < par then par - 1 else par)
  else (sq, crl, par)

/-- Specification-side scan: the positions of exactly those occurrences of
`d` in `s` at which all three open-bracket counters are zero, scanning left
to right from position `i` and skipping a recognized delimiter whole.
`fuel` only bounds the iteration count (each step advances the position by
at least one when `d` is non-empty). -/
def sigCuts (d s : List Char) : Nat → Nat → Nat → Nat → Nat → List Nat
  | 0, _, _, _, _ => []
  | fuel + 1, i, sq, crl, par =>
    if s.length ≤ i then []
    else if d.isPrefixOf (s.drop i) ∧ sq = 0 ∧ crl = 0 ∧ par = 0 then
      i :: sigCuts d s fuel (i + d.length) 0 0 0
    else
      let st := specCounterStep (s.getD i ' ') sq crl par
      sigCuts d s fuel (i + 1) st.1 st.2.1 st.2.2

/-- Cut `s` at the given delimiter positions: each element runs from the end
of the previous delimiter to the next cut, and the remainder of the string
after the last recognized delimiter is appended as the final element. -/
def cutElements (d s : List Char) : Nat → List Nat → List (List Char)
  | start, [] => [s.drop start]
  | start, c :: cs =>
    ((s.drop start).take (c - start)) :: cutElements d s (c + d.length) cs

/-- The bracket-aware split in the words of the specification: split `s` at
exactly those occurrences of `d` at which all three open-bracket counters
are zero. -/
def splitIgnoreGroupsSpec (s d : List Char) : List (List Char) :=
  if s = [] then []
  else if d = [] then [s]
  else cutElements d s 0 (sigCuts d s (s.length + 1) 0 0 0 0)

/-- String-level wrapper of `splitIgnoreGroupsSpec`. -/
def splitIgnoreGroupsSpecStr (s d : String) : List String :=
  (splitIgnoreGroupsSpec s.data d.data).map (fun l => String.mk l)

/-- The occurrences of `openC`/`closeC` in `s` form balanced groups: the
running count never drops below zero and ends at zero. -/
def balancedFor (openC closeC : Char) : List Char → Int → Bool
  | [], n => n = 0
  | c :: t, n =>
    let n' := if c = openC then n + 1 else if c = closeC then n - 1 else n
    decide (0 ≤ n') && balancedFor openC closeC t n'

/-- The `{}`, `[]` and `()` bracket groups of `s` are balanced. -/
def balancedBrackets (s : List Char) : Bool :=
  balancedFor '{' '}' s 0 && balancedFor '[' ']' s 0 && balancedFor '(' ')' s 0

/-- String-level join with a separator, mirroring `joinSep`. -/
def joinSepStr (sep : String) (xs : List String) : String :=
  String.mk (joinSep sep.data (xs.map String.data))

/-- Extend the first element of a split (the empty split being a single
element): used to relate the accumulator of `sigLoop` with the cut
decomposition. -/
def prependHead (acc : List Char) : List (List Char) → List (List Char)
  | [] => [acc]
  | e :: es => (acc ++ e) :: es

/-- The subscription command in the words of the specification, amended at
its two edges: when `ALL` is a key the command is exactly `event plain all`;
otherwise it is `event plain` followed by the non-`CUSTOM`-prefixed keys in
enumeration order, then ` BACKGROUND_JOB` when bgapi is on, then — when the
concatenation of the 6-character-stripped suffixes of the
`CUSTOM`-prefixed keys is non-empty — one space, `CUSTOM`, and that
concatenation; except that when the base command happens to equal
`event plain all` nothing is appended at all. -/
def eventsPlainSpec (events : List (List Char)) (bgapi : Bool) : List Char :=
  if "ALL".data ∈ events then "event plain all".data
  else
    let base := "event plain".data ++
      (events.filter
        (fun ev => !(("CUSTOM".data).isPrefixOf ev))).flatMap (fun ev => ' ' :: ev)
    let cust := (events.filter
        (fun ev => ("CUSTOM".data).isPrefixOf ev)).flatMap (fun ev => ev.drop 6)
    if base = "event plain all".data then base
    else (if bgapi then base ++ " BACKGROUND_JOB".data else base) ++
      (if cust ≠ [] then ' ' :: ("CUSTOM".data ++ cust) else [])

/-- String-level wrapper of `eventsPlainSpec`. -/
def eventsPlainSpecStr (events : List String) (bgapi : Bool) : String :=
  String.mk (eventsPlainSpec (events.map String.data) bgapi)

/-! ## Theorems -/

theorem sigLoop_zero (sep acc rest : List Char) (sq crl par : Nat) :
    sigLoop sep 0 acc rest sq crl par = [acc ++ rest] := rfl

theorem sigLoop_succ (sep : List Char) (n : Nat) (acc rest : List Char)
    (sq crl par : Nat) :
    sigLoop sep (n + 1) acc rest sq crl par =
      if sep.isPrefixOf rest ∧ sq = 0 ∧ crl = 0 ∧ par = 0 then
        acc :: sigLoop sep n [] (rest.drop sep.length) 0 0 0
      else match rest with
        | [] => [acc]
        | c :: t =>
          let s' := bracketStep c sq crl par
          sigLoop sep n (acc ++ [c]) t s'.1 s'.2.1 s'.2.2 := rfl

theorem sigLoop_ne_nil (sep : List Char) (fuel : Nat) (acc rest : List Char)
    (sq crl par : Nat) : sigLoop sep fuel acc rest sq crl par ≠ [] := by
  induction fuel generalizing acc rest sq crl par with
  | zero => simp [sigLoop_zero]
  | succ n ih =>
    rw [sigLoop_succ]
    split
    · simp
    · cases rest with
      | nil => simp
      | cons c t => exact ih _ _ _ _ _

theorem joinSep_cons (sep x : List Char) {r : List (List Char)} (h : r ≠ []) :
    joinSep sep (x :: r) = x ++ sep ++ joinSep sep r := by
  cases r with
  | nil => exact absurd rfl h
  | cons y t => rfl

theorem joinSep_sigLoop (sep : List Char) (fuel : Nat) (acc rest : List Char)
    (sq crl par : Nat) :
    joinSep sep (sigLoop sep fuel acc rest sq crl par) = acc ++ rest := by
  induction fuel generalizing acc rest sq crl par with
  | zero => simp [sigLoop_zero, joinSep]
  | succ n ih =>
    rw [sigLoop_succ]
    split
    · rename_i h
      rw [joinSep_cons sep acc
          (sigLoop_ne_nil sep n [] (rest.drop sep.length) 0 0 0), ih]
      obtain ⟨t, ht⟩ := List.isPrefixOf_iff_prefix.mp h.1
      rw [← ht]
      simp [List.drop_left]
    · cases rest with
      | nil => simp [joinSep]
      | cons c t =>
        rw [ih]
        simp

theorem joinSep_splitIgnoreGroups (s sep : List Char) (n : Nat) :
    joinSep sep (splitIgnoreGroups s sep n) = s := by
  unfold splitIgnoreGroups
  split
  · rename_i hs
    simp [joinSep, hs]
  · split
    · rfl
    · exact joinSep_sigLoop sep (s.length + 1) [] s 0 0 0

/-- C6: for every string `s` whose `{}`, `[]` and `()` bracket groups are
balanced and every non-empty delimiter `d`, joining the list returned by
`splitIgnoreGroups(s, d, n)` with `d` as separator yields exactly `s`. -/
theorem C6_split_join_roundtrip (s d : String) (n : Nat)
    (hbal : balancedBrackets s.data = true) (hd : d ≠ "") :
    joinSepStr d (splitIgnoreGroupsStr s d n) = s := by
  unfold joinSepStr splitIgnoreGroupsStr
  rw [List.map_map]
  have hid : (String.data ∘ fun l => String.mk l) = id := rfl
  rw [hid, List.map_id, joinSep_splitIgnoreGroups]

/-- Witness for C6: the round trip at the concrete channel line
`a,{b,c},[d,e],f` with delimiter `,`. -/
theorem C6_split_join_roundtrip_witness :
    balancedBrackets ("a,{b,c},[d,e],f" : String).data = true ∧
    ("," : String) ≠ "" ∧
    joinSepStr "," (splitIgnoreGroupsStr "a,{b,c},[d,e],f" "," 4) =
      "a,{b,c},[d,e],f" :=
  ⟨by decide, by decide,
    C6_split_join_roundtrip "a,{b,c},[d,e],f" "," 4 (by decide) (by decide)⟩

theorem specCounterStep_eq_bracketStep (c : Char) (sq crl par : Nat) :
    specCounterStep c sq crl par = bracketStep c sq crl par := by
  unfold specCounterStep bracketStep
  have h1 : (if 0 < sq then sq - 1 else sq) = sq - 1 := by
    split <;> omega
  have h2 : (if 0 < crl then crl - 1 else crl) = crl - 1 := by
    split <;> omega
  have h3 : (if 0 < par then par - 1 else par) = par - 1 := by
    split <;> omega
  rw [h1, h2, h3]

theorem sigCuts_zero (d s : List Char) (i sq crl par : Nat) :
    sigCuts d s 0 i sq crl par = [] := rfl

theorem sigCuts_succ (d s : List Char) (n i sq crl par : Nat) :
    sigCuts d s (n + 1) i sq crl par =
      if s.length ≤ i then []
      else if d.isPrefixOf (s.drop i) ∧ sq = 0 ∧ crl = 0 ∧ par = 0 then
        i :: sigCuts d s n (i + d.length) 0 0 0
      else
        let st := specCounterStep (s.getD i ' ') sq crl par
        sigCuts d s n (i + 1) st.1 st.2.1 st.2.2 := rfl

theorem sigCuts_ge (d s : List Char) (fuel : Nat) :
    ∀ (i sq crl par c : Nat), c ∈ sigCuts d s fuel i sq crl par → i ≤ c := by
  induction fuel with
  | zero =>
    intro i sq crl par c hc
    simp [sigCuts_zero] at hc
  | succ n ih =>
    intro i sq crl par c hc
    rw [sigCuts_succ] at hc
    split at hc
    · simp at hc
    · split at hc
      · rcases List.mem_cons.mp hc with rfl | hc'
        · exact le_refl c
        · have := ih (i + d.length) 0 0 0 c hc'
          omega
      · have := ih (i + 1) _ _ _ c hc
        omega

theorem prependHead_nil_cutElements (d s : List Char) (st : Nat)
    (cuts : List Nat) :
    prependHead [] (cutElements d s st cuts) = cutElements d s st cuts := by
  cases cuts <;> simp [cutElements, prependHead]

theorem prependHead_extend (d s acc : List Char) (i : Nat)
    (hlt : i < s.length) (cuts : List Nat) (hge : ∀ c ∈ cuts, i + 1 ≤ c) :
    prependHead (acc ++ [s[i]]) (cutElements d s (i + 1) cuts) =
      prependHead acc (cutElements d s i cuts) := by
  cases cuts with
  | nil =>
    simp only [cutElements, prependHead]
    rw [List.drop_eq_getElem_cons hlt]
    simp
  | cons c cs =>
    have hc : i + 1 ≤ c := hge c (List.mem_cons_self c cs)
    simp only [cutElements, prependHead]
    rw [List.drop_eq_getElem_cons hlt]
    have hci : c - i = (c - (i + 1)) + 1 := by omega
    rw [hci, List.take_succ_cons]
    simp

theorem sigLoop_eq_cutElements (d s : List Char) (hd : d ≠ []) (fuel : Nat) :
    ∀ (i sq crl par : Nat) (acc : List Char),
      sigLoop d fuel acc (s.drop i) sq crl par =
        prependHead acc (cutElements d s i (sigCuts d s fuel i sq crl par)) := by
  induction fuel with
  | zero =>
    intro i sq crl par acc
    simp [sigLoop_zero, sigCuts_zero, cutElements, prependHead]
  | succ n ih =>
    intro i sq crl par acc
    rw [sigLoop_succ, sigCuts_succ]
    by_cases hlen : s.length ≤ i
    · rw [if_pos hlen]
      have hnil : s.drop i = [] := List.drop_eq_nil_of_le hlen
      rw [hnil]
      have hpre : d.isPrefixOf ([] : List Char) = false := by
        cases d with
        | nil => exact absurd rfl hd
        | cons a t => rfl
      simp [hpre, cutElements, prependHead, hnil]
    · rw [if_neg hlen]
      replace hlen : i < s.length := Nat.lt_of_not_le hlen
      by_cases hg : d.isPrefixOf (s.drop i) ∧ sq = 0 ∧ crl = 0 ∧ par = 0
      · rw [if_pos hg, if_pos hg, List.drop_drop, ih (i + d.length) 0 0 0 [],
          prependHead_nil_cutElements]
        simp [cutElements, prependHead]
      · rw [if_neg hg, if_neg hg, List.drop_eq_getElem_cons hlen]
        simp only
        rw [ih (i + 1) _ _ _ (acc ++ [s[i]]),
          List.getD_eq_getElem s ' ' hlen, specCounterStep_eq_bracketStep]
        exact prependHead_extend d s acc i hlen _
          (fun c hc => sigCuts_ge d s n (i + 1) _ _ _ c hc)

theorem splitIgnoreGroups_eq_spec (s d : List Char) (n : Nat) :
    splitIgnoreGroups s d n = splitIgnoreGroupsSpec s d := by
  unfold splitIgnoreGroups splitIgnoreGroupsSpec
  by_cases hs : s = []
  · simp [hs]
  · by_cases hdn : d = []
    · simp [hs, hdn]
    · simp only [if_neg hs, if_neg hdn]
      have h := sigLoop_eq_cutElements d s hdn (s.length + 1) 0 0 0 0 []
      simp only [List.drop_zero] at h
      rw [h, prependHead_nil_cutElements]

/-- C7: `splitIgnoreGroups(s, d, n)` splits `s` at exactly those occurrences
of `d` at which all three open-bracket counters (for `{}`, `[]` and `()`)
are zero — the counters incrementing on `[`, `{`, `(` and decrementing on
`]`, `}`, `)` but never below zero, an unmatched opening bracket suppressing
all later splits — and the remainder of the string after the last recognized
delimiter is always appended as the final element
(`splitIgnoreGroupsSpec` states exactly this cut decomposition); in
particular `splitIgnoreGroups("a,{b,c},[d,e],f", ",", n)` is
`["a", "{b,c}", "[d,e]", "f"]`. -/
theorem C7_splitIgnoreGroups_cut_characterization :
    (∀ (s d : String) (n : Nat),
        splitIgnoreGroupsStr s d n = splitIgnoreGroupsSpecStr s d) ∧
    (∀ n : Nat, splitIgnoreGroupsStr "a,{b,c},[d,e],f" "," n =
        ["a", "{b,c}", "[d,e]", "f"]) := by
  constructor
  · intro s d n
    unfold splitIgnoreGroupsStr splitIgnoreGroupsSpecStr
    rw [splitIgnoreGroups_eq_spec]
  · intro n
    have hn : splitIgnoreGroupsStr "a,{b,c},[d,e],f" "," n =
        splitIgnoreGroupsStr "a,{b,c},[d,e],f" "," 0 := rfl
    rw [hn]
    decide

theorem epLoop_nil (cmd cust : List Char) : epLoop [] cmd cust = (cmd, cust) :=
  rfl

theorem epLoop_cons (ev : List Char) (rest : List (List Char))
    (cmd cust : List Char) :
    epLoop (ev :: rest) cmd cust =
      if ev = "ALL".data then ("event plain all".data, cust)
      else if ("CUSTOM".data).isPrefixOf ev then
        epLoop rest cmd (cust ++ ev.drop 6)
      else epLoop rest (cmd ++ ' ' :: ev) cust := rfl

theorem epLoop_of_mem_all (evs : List (List Char))
    (hmem : "ALL".data ∈ evs) (cmd cust : List Char) :
    (epLoop evs cmd cust).1 = "event plain all".data := by
  induction evs generalizing cmd cust with
  | nil => simp at hmem
  | cons ev rest ih =>
    rw [epLoop_cons]
    by_cases hall : ev = "ALL".data
    · rw [if_pos hall]
    · rw [if_neg hall]
      have hmem' : "ALL".data ∈ rest := by
        rcases List.mem_cons.mp hmem with h | h
        · exact absurd h.symm hall
        · exact h
      split
      · exact ih hmem' _ _
      · exact ih hmem' _ _

theorem epLoop_of_not_mem_all (evs : List (List Char))
    (hall : "ALL".data ∉ evs) (cmd cust : List Char) :
    epLoop evs cmd cust =
      (cmd ++ (evs.filter
          (fun ev => !(("CUSTOM".data).isPrefixOf ev))).flatMap
          (fun ev => ' ' :: ev),
       cust ++ (evs.filter
          (fun ev => ("CUSTOM".data).isPrefixOf ev)).flatMap
          (fun ev => ev.drop 6)) := by
  induction evs generalizing cmd cust with
  | nil => simp [epLoop_nil]
  | cons ev rest ih =>
    have hne : ev ≠ "ALL".data := fun h => hall (h ▸ List.mem_cons_self ev rest)
    have hrest : "ALL".data ∉ rest := fun h => hall (List.mem_cons_of_mem _ h)
    rw [epLoop_cons, if_neg hne]
    by_cases hcust : ("CUSTOM".data).isPrefixOf ev
    · rw [if_pos hcust, ih hrest]
      simp [List.filter_cons, hcust]
    · rw [if_neg hcust, ih hrest]
      simp [List.filter_cons, hcust]

theorem eventsPlainCmd_eq_spec (events : List (List Char)) (bgapi : Bool) :
    eventsPlainCmd events bgapi = eventsPlainSpec events bgapi := by
  unfold eventsPlainCmd eventsPlainSpec
  by_cases hall : "ALL".data ∈ events
  · rw [if_pos hall]
    have h1 := epLoop_of_mem_all events hall "event plain".data []
    simp [h1]
  · rw [if_neg hall, epLoop_of_not_mem_all events hall]
    simp only [List.nil_append]
    by_cases hb : "event plain".data ++ (events.filter
        (fun ev => !(("CUSTOM".data).isPrefixOf ev))).flatMap
        (fun ev => ' ' :: ev) = "event plain all".data
    · simp [hb]
    · rw [if_neg hb, if_pos hb]
      by_cases hc : (events.filter
          (fun ev => ("CUSTOM".data).isPrefixOf ev)).flatMap
          (fun ev => ev.drop 6) = []
      · simp [hc]
      · simp [hc]

/-- C3 counterexample: for the handler-key set `{"CUSTOM"}` (a key that
starts with `CUSTOM` but whose 6-character-stripped suffix is empty) and
bgapi off, the claim predicts `event plain CUSTOM` (one space and the
literal `CUSTOM` appended because a key starts with `CUSTOM`), but the
composed command is `event plain`. -/
theorem C3_eventsPlain_counterexample :
    eventsPlainCmdStr ["CUSTOM"] false = "event plain" ∧
    ("event plain" : String) ≠ "event plain CUSTOM" := by
  constructor
  · decide
  · decide

/-- C3 (amended): the composed subscription command is `event plain all`
exactly when `ALL` is a key; otherwise it is `event plain` plus the
non-`CUSTOM`-prefixed keys in order, then ` BACKGROUND_JOB` if bgapi, then
` CUSTOM` plus the concatenated 6-character-stripped suffixes — appended
only when that concatenation is non-empty, and with nothing appended in the
edge case where the base command already equals `event plain all`. -/
theorem C3_eventsPlain_composition_amended (events : List String)
    (bgapi : Bool) :
    eventsPlainCmdStr events bgapi = eventsPlainSpecStr events bgapi := by
  unfold eventsPlainCmdStr eventsPlainSpecStr
  rw [eventsPlainCmd_eq_spec]

theorem alLookup_insert_self {α β : Type} [DecidableEq α]
    (m : List (α × β)) (k : α) (v : β) :
    alLookup k (alInsert m k v) = some v := by
  induction m with
  | nil => simp [alInsert, alLookup]
  | cons p t ih =>
    obtain ⟨a, b⟩ := p
    by_cases hp : a = k
    · simp [alInsert, hp, alLookup]
    · simp [alInsert, hp, alLookup, ih]

theorem alLookup_insert_other {α β : Type} [DecidableEq α]
    (m : List (α × β)) (k : α) (v : β) (k' : α) (h : k' ≠ k) :
    alLookup k' (alInsert m k v) = alLookup k' m := by
  induction m with
  | nil => simp [alInsert, alLookup, Ne.symm h]
  | cons p t ih =>
    obtain ⟨a, b⟩ := p
    by_cases hp : a = k
    · subst hp
      simp [alInsert, alLookup, Ne.symm h]
    · simp [alInsert, hp, alLookup, ih]

theorem alLookup_erase_self {α β : Type} [DecidableEq α]
    (m : List (α × β)) (k : α) :
    alLookup k (alErase m k) = none := by
  induction m with
  | nil => rfl
  | cons p t ih =>
    obtain ⟨a, b⟩ := p
    by_cases hp : a = k
    · simpa [alErase, List.filter_cons, hp] using ih
    · simpa [alErase, List.filter_cons, hp, alLookup] using ih

theorem alLookup_erase_other {α β : Type} [DecidableEq α]
    (m : List (α × β)) (k k' : α) (h : k' ≠ k) :
    alLookup k' (alErase m k) = alLookup k' m := by
  induction m with
  | nil => rfl
  | cons p t ih =>
    obtain ⟨a, b⟩ := p
    by_cases hp : a = k
    · subst hp
      simpa [alErase, List.filter_cons, alLookup, Ne.symm h] using ih
    · simp only [alErase, decide_not] at ih
      simp [alErase, List.filter_cons, hp, alLookup, decide_not, ih]

/-- C1 counterexample: submitting a bgapi command over a failing connection
starting from an empty job map leaves the fresh entry in the map — the map
is NOT unchanged overall on failure, contrary to the claim that the entry is
removed on send error. -/
theorem C1_sendBgapiCmd_counterexample :
    (sendBgapiCmd ("status".data) ("u".data) 7 true []).bgapiChan =
      [("u".data, 7)] ∧
    ([("u".data, 7)] : List (List Char × Nat)) ≠ [] := by
  constructor
  · rfl
  · simp

/-- C1 (amended): `SendBgapiCmd` composes the payload
`bgapi <cmd>\nJob-UUID:<u>\n\n` and inserts `u ↦ out` into the job map
before the synchronous send; if the send fails, the error is returned and
the entry for `u` REMAINS in the map (it is not removed); if the send
succeeds, the result channel is returned and the entry remains as well.  In
both cases no other key of the map is touched. -/
theorem C1_sendBgapiCmd_amended (cmdStr jobUUID : List Char) (out : Nat)
    (sendFails : Bool) (m : List (List Char × Nat)) :
    (sendBgapiCmd cmdStr jobUUID out sendFails m).payload =
      "bgapi ".data ++ cmdStr ++ "\nJob-UUID:".data ++ jobUUID ++
        "\n\n".data ∧
    alLookup jobUUID (sendBgapiCmd cmdStr jobUUID out sendFails m).bgapiChan =
      some out ∧
    (∀ k, k ≠ jobUUID →
      alLookup k (sendBgapiCmd cmdStr jobUUID out sendFails m).bgapiChan =
        alLookup k m) ∧
    (sendBgapiCmd cmdStr jobUUID out sendFails m).out =
      (if sendFails then none else some out) ∧
    (sendBgapiCmd cmdStr jobUUID out sendFails m).isErr = sendFails := by
  refine ⟨rfl, ?_, ?_, rfl, rfl⟩
  · exact alLookup_insert_self m jobUUID out
  · intro k hk
    exact alLookup_insert_other m jobUUID out k hk

/-- Witness for C1 (amended): the failed submission of `status` with job
UUID `u` and channel 7 keeps the entry `u ↦ 7` while returning the error. -/
theorem C1_sendBgapiCmd_amended_witness :
    alLookup ("u".data)
      (sendBgapiCmd ("status".data) ("u".data) 7 true []).bgapiChan =
        some 7 ∧
    (sendBgapiCmd ("status".data) ("u".data) 7 true []).isErr = true := by
  have h := C1_sendBgapiCmd_amended ("status".data) ("u".data) 7 true []
  exact ⟨h.2.1, h.2.2.2.2⟩

theorem reconnectAttempts_all_fail (connectOk : Nat → Bool)
    (hfail : ∀ i, connectOk i = false) :
    ∀ r i, reconnectAttempts connectOk i r = (r, false) := by
  intro r
  induction r with
  | zero => intro i; rfl
  | succ n ih =>
    intro i
    unfold reconnectAttempts
    rw [hfail i]
    simp [ih (i + 1)]

/-- C2 counterexample: with `reconnects = 0` and a disconnected supervisor,
`reconnectIfNeeded` makes 0 connection attempts (the loop body never runs)
before returning the terminal error — not `0 + 1` as the claim states. -/
theorem C2_reconnect_counterexample :
    reconnectIfNeeded false 0 (fun _ => false) = (0, true) ∧
    (0 : Nat) ≠ 0 + 1 := by
  constructor
  · rfl
  · simp

/-- C2 (amended): for `reconnects = k ≥ 0`, a disconnected supervisor whose
every connection attempt fails makes exactly `k` connection attempts (not
`k + 1`) before giving up with an error, and exactly one terminal error is
emitted on the external `stopError` channel for that abandonment. -/
theorem C2_reconnect_bound_amended (k : Nat) (connectOk : Nat → Bool)
    (hfail : ∀ i, connectOk i = false) :
    reconnectIfNeeded false k connectOk = (k, true) ∧
    stopErrorEmissions false k connectOk = 1 := by
  have h := reconnectAttempts_all_fail connectOk hfail k 0
  constructor
  · simp [reconnectIfNeeded, h]
  · simp [stopErrorEmissions, reconnectIfNeeded, h]

/-- Witness for C2 (amended): at `reconnects = 2` with every attempt
failing, exactly 2 attempts are made and one stop error is emitted. -/
theorem C2_reconnect_bound_amended_witness :
    reconnectIfNeeded false 2 (fun _ => false) = (2, true) ∧
    stopErrorEmissions false 2 (fun _ => false) = 1 :=
  C2_reconnect_bound_amended 2 (fun _ => false) (fun _ => rfl)

/-- C4: for every job-map state and every event body parsed by `EventToMap`:
if the event's `Job-UUID` value `u` has a registered entry `ch`, then
`doBackgroundJob` removes the entry for `u` (no other key is affected) and
sends the parsed map's `EvBody` value on `ch`; if `u` has no entry, or the
event has no `Job-UUID` header, the map is left unchanged and nothing is
sent. -/
theorem C4_doBackgroundJob_correlation (st : List (List Char × Nat))
    (event : List Char) :
    (∀ u ch, alLookup ("Job-UUID".data) (eventToMap event) = some u →
      alLookup u st = some ch →
      doBackgroundJob st event =
        (alErase st u,
          some (ch, (alLookup evBodyTag (eventToMap event)).getD [])) ∧
      alLookup u (doBackgroundJob st event).1 = none ∧
      (∀ k, k ≠ u → alLookup k (doBackgroundJob st event).1 = alLookup k st)) ∧
    (∀ u, alLookup ("Job-UUID".data) (eventToMap event) = some u →
      alLookup u st = none → doBackgroundJob st event = (st, none)) ∧
    (alLookup ("Job-UUID".data) (eventToMap event) = none →
      doBackgroundJob st event = (st, none)) := by
  refine ⟨?_, ?_, ?_⟩
  · intro u ch hu hch
    have heq : doBackgroundJob st event =
        (alErase st u,
          some (ch, (alLookup evBodyTag (eventToMap event)).getD [])) := by
      unfold doBackgroundJob
      simp only [hu, hch]
    refine ⟨heq, ?_, ?_⟩
    · rw [heq]
      exact alLookup_erase_self st u
    · intro k hk
      rw [heq]
      exact alLookup_erase_other st u k hk
  · intro u hu hch
    unfold doBackgroundJob
    simp only [hu, hch]
  · intro hu
    unfold doBackgroundJob
    simp only [hu]

/-- Witness for C4: the event
`Event-Name: BACKGROUND_JOB\nJob-UUID: 123\n\n+OK done` against the job map
`{123 ↦ 5}`: the entry is removed and `+OK done` is sent on channel 5. -/
theorem C4_doBackgroundJob_correlation_witness :
    doBackgroundJob [("123".data, 5)]
        ("Event-Name: BACKGROUND_JOB\nJob-UUID: 123\n\n+OK done".data) =
      ([], some (5, "+OK done".data)) := by
  have h := (C4_doBackgroundJob_correlation [("123".data, 5)]
      ("Event-Name: BACKGROUND_JOB\nJob-UUID: 123\n\n+OK done".data)).1
      ("123".data) 5 (by decide) (by decide)
  rw [h.1]
  decide

/-- C8: for every frame (header plus optional body) read by the reader loop:
a header containing `api/response` publishes the body verbatim on the reply
channel; otherwise a header containing `command/reply` publishes the
extracted `Reply-Text` value; otherwise the frame is dispatched as an event
if and only if the body is non-empty, and a frame with empty body matching
neither content type produces no output. -/
theorem C8_readEvents_frame_classification (hdr body : List Char) :
    (containsSubstr hdr ("api/response".data) = true →
      readEventsClassify hdr body = .publishReply body) ∧
    (containsSubstr hdr ("api/response".data) = false →
      containsSubstr hdr ("command/reply".data) = true →
      readEventsClassify hdr body =
        .publishReply (headerVal hdr ("Reply-Text".data))) ∧
    (containsSubstr hdr ("api/response".data) = false →
      containsSubstr hdr ("command/reply".data) = false →
      (readEventsClassify hdr body = .dispatchEvent body ↔ body ≠ []) ∧
      (body = [] → readEventsClassify hdr body = .nothing)) := by
  refine ⟨?_, ?_, ?_⟩
  · intro h1
    simp [readEventsClassify, h1]
  · intro h1 h2
    simp [readEventsClassify, h1, h2]
  · intro h1 h2
    constructor
    · by_cases hb : body = []
      · simp [readEventsClassify, h1, h2, hb]
      · simp [readEventsClassify, h1, h2, hb]
    · intro hb
      simp [readEventsClassify, h1, h2, hb]

/-- Witness for C8: an `api/response` frame publishes its body `+OK`
verbatim, and a `command/reply` frame publishes its `Reply-Text` value. -/
theorem C8_readEvents_frame_classification_witness :
    readEventsClassify ("Content-Type: api/response\n".data) ("+OK".data) =
      .publishReply ("+OK".data) ∧
    readEventsClassify
        ("Content-Type: command/reply\nReply-Text: +OK accepted\n".data) [] =
      .publishReply ("+OK accepted".data) := by
  constructor
  · exact (C8_readEvents_frame_classification
      ("Content-Type: api/response\n".data) ("+OK".data)).1 (by decide)
  · have h := (C8_readEvents_frame_classification
        ("Content-Type: command/reply\nReply-Text: +OK accepted\n".data)
        []).2.1 (by decide) (by decide)
    rw [h]
    decide

/-- C9 counterexample: a read error that is NOT a network-operation error
(modelled as `GoError.other 0`, e.g. a generic wrapped error) is mapped by
`readHeaders` to the reconnect-eligible sentinel `io.EOF` instead of being
returned unchanged as the claim states; moreover a header block whose first
line is blank returns an empty header with NO error, so the header is not
empty exactly when an error is returned. -/
theorem C9_readHeaders_counterexample :
    readHeadersGo [] [.fail (.other 0)] = ([], some .eof) ∧
    GoError.eof ≠ GoError.other 0 ∧
    readHeadersGo [] [.line ['\n']] = ([], none) := by
  refine ⟨by decide, by decide, by decide⟩

theorem readHeadersGo_err_empty :
    ∀ (stream : List ReadResult) (acc : List Char),
      (readHeadersGo acc stream).2.isSome = true →
      (readHeadersGo acc stream).1 = [] := by
  intro stream
  induction stream with
  | nil => intro acc _; rfl
  | cons r rest ih =>
    intro acc h
    cases r with
    | fail e => rfl
    | line l =>
      unfold readHeadersGo at h ⊢
      by_cases ht : trimSpaceGo l = []
      · rw [if_pos ht] at h
        simp at h
      · rw [if_neg ht] at h ⊢
        exact ih _ h

/-- C9 (amended): `readHeaders` closes the connection on every read error
and classifies it: EOF, any error that is not a `net.OpError`, a
network-operation timeout and a connection reset are all mapped to the
reconnect-eligible sentinel `io.EOF`; only a `net.OpError` that neither
timed out nor wraps `ECONNRESET` is returned unchanged as a terminal error.
Whenever an error is returned the header string is empty (the converse does
not hold: a leading blank line yields an empty header without error). -/
theorem C9_readHeaders_classification_amended :
    (classifyReadError .eof = .eof) ∧
    (∀ id, classifyReadError (.other id) = .eof) ∧
    (∀ reset id, classifyReadError (.opError true reset id) = .eof) ∧
    (∀ tmo id, classifyReadError (.opError tmo true id) = .eof) ∧
    (∀ id, classifyReadError (.opError false false id) =
      .opError false false id) ∧
    (∀ (stream : List ReadResult) (acc : List Char),
      (readHeadersGo acc stream).2.isSome = true →
      (readHeadersGo acc stream).1 = []) := by
  refine ⟨rfl, fun id => rfl, fun reset id => rfl, ?_, fun id => rfl,
    readHeadersGo_err_empty⟩
  intro tmo id
  cases tmo <;> rfl

/-- Witness for C9 (amended): a non-timeout, non-reset `net.OpError` is
returned unchanged, and the failed read returns an empty header. -/
theorem C9_readHeaders_classification_amended_witness :
    classifyReadError (.opError false false 3) = .opError false false 3 ∧
    (readHeadersGo [] [.fail (.opError false false 3)]).1 = [] := by
  have h := C9_readHeaders_classification_amended
  exact ⟨h.2.2.2.2.1 3,
    h.2.2.2.2.2 [.fail (.opError false false 3)] [] (by decide)⟩

theorem alLookup_insert_isSome {α β : Type} [DecidableEq α]
    (m : List (α × β)) (k k' : α) (v : β)
    (h : (alLookup k m).isSome = true) :
    (alLookup k (alInsert m k' v)).isSome = true := by
  by_cases hk : k = k'
  · subst hk
    simp [alLookup_insert_self]
  · rw [alLookup_insert_other m k' v k hk]
    exact h

theorem fsEventLineStep_of_none (headers : List (List Char))
    (acc : List (List Char × List Char)) (ln : List Char)
    (h : splitN2 ln (": ".data) = none) :
    fsEventLineStep headers acc ln = acc := by
  unfold fsEventLineStep
  rw [h]

theorem fsEventLineStep_of_some (headers : List (List Char))
    (acc : List (List Char × List Char)) (ln k v : List Char)
    (h : splitN2 ln (": ".data) = some (k, v)) :
    fsEventLineStep headers acc ln =
      if headers ≠ [] ∧ k ∈ headers then acc
      else alInsert acc k (urlDecode (trimSpaceGo (trimRightNl v))) := by
  unfold fsEventLineStep
  rw [h]

theorem fsFold_lookup_isSome (headers : List (List Char)) (k : List Char) :
    ∀ (lines : List (List Char)) (acc : List (List Char × List Char)),
      (alLookup k acc).isSome = true →
      (alLookup k (lines.foldl (fsEventLineStep headers) acc)).isSome =
        true := by
  intro lines
  induction lines with
  | nil => intro acc h; exact h
  | cons ln rest ih =>
    intro acc h
    rw [List.foldl_cons]
    apply ih
    cases hsp : splitN2 ln (": ".data) with
    | none =>
      rw [fsEventLineStep_of_none headers acc ln hsp]
      exact h
    | some p =>
      obtain ⟨k', v⟩ := p
      rw [fsEventLineStep_of_some headers acc ln k' v hsp]
      split
      · exact h
      · exact alLookup_insert_isSome acc k k' _ h

theorem fsFold_lookup_blacklist (headers : List (List Char))
    (hne : headers ≠ []) (h : List Char) (hmem : h ∈ headers) :
    ∀ (lines : List (List Char)) (acc : List (List Char × List Char)),
      alLookup h acc = none →
      alLookup h (lines.foldl (fsEventLineStep headers) acc) = none := by
  intro lines
  induction lines with
  | nil => intro acc hacc; exact hacc
  | cons ln rest ih =>
    intro acc hacc
    rw [List.foldl_cons]
    apply ih
    cases hsp : splitN2 ln (": ".data) with
    | none =>
      rw [fsEventLineStep_of_none headers acc ln hsp]
      exact hacc
    | some p =>
      obtain ⟨k', v⟩ := p
      rw [fsEventLineStep_of_some headers acc ln k' v hsp]
      by_cases hk : k' ∈ headers
      · rw [if_pos ⟨hne, hk⟩]
        exact hacc
      · rw [if_neg (fun hc => hk hc.2)]
        have hne' : h ≠ k' := fun he => hk (he ▸ hmem)
        rw [alLookup_insert_other acc k' _ h hne']
        exact hacc

theorem fsFold_lookup_inserted (headers : List (List Char)) (k : List Char) :
    ∀ (lines : List (List Char)) (acc : List (List Char × List Char))
      (ln : List Char) (v : List Char), ln ∈ lines →
      splitN2 ln (": ".data) = some (k, v) →
      ¬(headers ≠ [] ∧ k ∈ headers) →
      (alLookup k (lines.foldl (fsEventLineStep headers) acc)).isSome =
        true := by
  intro lines
  induction lines with
  | nil =>
    intro acc ln v hmem
    simp at hmem
  | cons ln0 rest ih =>
    intro acc ln v hmem hsp hskip
    rw [List.foldl_cons]
    rcases List.mem_cons.mp hmem with rfl | hmem'
    · apply fsFold_lookup_isSome
      rw [fsEventLineStep_of_some headers acc ln k v hsp, if_neg hskip]
      simp [alLookup_insert_self]
    · exact ih _ ln v hmem' hsp hskip

theorem fsFold_lookup_provenance (k : List Char) :
    ∀ (lines : List (List Char)) (acc : List (List Char × List Char))
      (w : List Char),
      alLookup k (lines.foldl (fsEventLineStep []) acc) = some w →
      (∃ ln ∈ lines, ∃ v, splitN2 ln (": ".data) = some (k, v) ∧
        w = urlDecode (trimSpaceGo (trimRightNl v))) ∨
      alLookup k acc = some w := by
  intro lines
  induction lines with
  | nil => intro acc w h; exact Or.inr h
  | cons ln rest ih =>
    intro acc w h
    rw [List.foldl_cons] at h
    rcases ih _ w h with hfound | hacc
    · obtain ⟨ln', hln', v, hv, hw⟩ := hfound
      exact Or.inl ⟨ln', List.mem_cons_of_mem _ hln', v, hv, hw⟩
    · cases hsp : splitN2 ln (": ".data) with
      | none =>
        rw [fsEventLineStep_of_none [] acc ln hsp] at hacc
        exact Or.inr hacc
      | some p =>
        obtain ⟨k', v⟩ := p
        rw [fsEventLineStep_of_some [] acc ln k' v hsp,
          if_neg (fun hc => hc.1 rfl)] at hacc
        by_cases hk : k = k'
        · subst hk
          rw [alLookup_insert_self] at hacc
          exact Or.inl ⟨ln, List.mem_cons_self ln rest, v, hsp,
            (Option.some_injective _ hacc).symm⟩
        · rw [alLookup_insert_other acc k' _ k hk] at hacc
          exact Or.inr hacc

/-- C10: the `headers` argument of `FSEventStrToMap` is an exclusion
(blacklist) filter: when it is non-empty, no listed header appears as a key
of the result, while every parsed `Key: value` line whose key is not listed
still contributes an entry; when `headers` is empty, every `Key: value`
line contributes an entry, and every stored value is the percent-decoded,
whitespace-trimmed value of one of the lines bearing that key. -/
theorem C10_fsEventStrToMap_blacklist (fsevstr : List Char)
    (headers : List (List Char)) :
    (headers ≠ [] → ∀ h ∈ headers,
      alLookup h (fsEventStrToMap fsevstr headers) = none) ∧
    (∀ ln ∈ splitOnCharGo '\n' fsevstr, ∀ k v,
      splitN2 ln (": ".data) = some (k, v) → k ∉ headers →
      (alLookup k (fsEventStrToMap fsevstr headers)).isSome = true) ∧
    (∀ ln ∈ splitOnCharGo '\n' fsevstr, ∀ k v,
      splitN2 ln (": ".data) = some (k, v) →
      (alLookup k (fsEventStrToMap fsevstr [])).isSome = true) ∧
    (∀ k w, alLookup k (fsEventStrToMap fsevstr []) = some w →
      ∃ ln ∈ splitOnCharGo '\n' fsevstr, ∃ v,
        splitN2 ln (": ".data) = some (k, v) ∧
        w = urlDecode (trimSpaceGo (trimRightNl v))) := by
  refine ⟨?_, ?_, ?_, ?_⟩
  · intro hne h hmem
    exact fsFold_lookup_blacklist headers hne h hmem _ [] rfl
  · intro ln hln k v hsp hk
    exact fsFold_lookup_inserted headers k _ [] ln v hln hsp
      (fun hc => hk hc.2)
  · intro ln hln k v hsp
    exact fsFold_lookup_inserted [] k _ [] ln v hln hsp
      (fun hc => hc.1 rfl)
  · intro k w h
    rcases fsFold_lookup_provenance k _ [] w h with hfound | hacc
    · exact hfound
    · simp [alLookup] at hacc

/-- Witness for C10: in `A: 1\nB: 2%20x` with blacklist `["A"]`, the key `A`
is absent while `B` is present; with no blacklist both are present, and the
value stored for `B` is the percent-decoded `2 x`. -/
theorem C10_fsEventStrToMap_blacklist_witness :
    alLookup ("A".data) (fsEventStrToMap ("A: 1\nB: 2%20x".data)
      [("A".data)]) = none ∧
    (alLookup ("B".data) (fsEventStrToMap ("A: 1\nB: 2%20x".data)
      [("A".data)])).isSome = true ∧
    (alLookup ("A".data) (fsEventStrToMap ("A: 1\nB: 2%20x".data)
      [])).isSome = true := by
  have h := C10_fsEventStrToMap_blacklist ("A: 1\nB: 2%20x".data)
    [("A".data)]
  have h0 := C10_fsEventStrToMap_blacklist ("A: 1\nB: 2%20x".data) []
  refine ⟨h.1 (by decide) ("A".data) (by decide), ?_, ?_⟩
  · exact h.2.1 ("B: 2%20x".data) (by decide) ("B".data) ("2%20x".data)
      (by decide) (by decide)
  · exact h0.2.2.1 ("A: 1".data) (by decide) ("A".data) ("1".data)
      (by decide)

theorem pool_conservation (N : Nat) (s : PoolState)
    (h : PoolReachable N s) :
    s.permits + s.idleLive + s.idleDead + s.outLive + s.outDead +
      s.failedPops = N := by
  induction h with
  | init => simp
  | step hs hstep ih =>
    cases hstep <;> simp_all <;> omega

/-- C5 counterexample: with capacity `N = 1`, one `PopFSock` that consumes
the only permit and whose `NewFSock` construction fails reaches the state
(permits 0, idle 0, checked-out live 0, failed pop pending 1): the claimed
sum permits + idle + checked-out-live is 0, not N = 1. -/
theorem C5_pool_counterexample :
    PoolReachable 1 ⟨0, 0, 0, 0, 0, 1⟩ ∧ 0 + (0 + 0) + 0 ≠ 1 := by
  constructor
  · exact PoolReachable.step PoolReachable.init
      (PoolStep.popNewFail ⟨1, 0, 0, 0, 0, 0⟩ (by decide))
  · decide

/-- C5 (amended): in every reachable pool state the conservation law is
permits + idle + checked-out live + checked-out dead + pending failed pops
= N; consequently permits + idle + checked-out-live-supervisors is at most
`N` (equality can fail after a construction failure consumed a permit or
after a checked-out supervisor disconnected, until the caller pushes the
nil/dead supervisor back), and the number of live supervisors checked out
simultaneously never exceeds `N`. -/
theorem C5_pool_invariant_amended (N : Nat) (s : PoolState)
    (h : PoolReachable N s) :
    s.permits + s.idleLive + s.idleDead + s.outLive + s.outDead +
        s.failedPops = N ∧
    s.permits + (s.idleLive + s.idleDead) + s.outLive ≤ N ∧
    s.outLive ≤ N := by
  have hc := pool_conservation N s h
  exact ⟨hc, by omega, by omega⟩

/-- Witness for C5 (amended): the conservation law and the bounds at the
reachable state reached from a fresh pool of capacity 1 by one failed
construction. -/
theorem C5_pool_invariant_amended_witness :
    (0 + 0 + 0 + 0 + 0 + 1 = 1) ∧
    (0 + (0 + 0) + 0 ≤ 1) ∧ (0 ≤ 1) :=
  C5_pool_invariant_amended 1 ⟨0, 0, 0, 0, 0, 1⟩
    (PoolReachable.step PoolReachable.init
      (PoolStep.popNewFail ⟨1, 0, 0, 0, 0, 0⟩ (by decide)))

end Fsock
